import Mathlib

/-!
Shallow embedding of the SuperScalar-Simulator pipeline core
(`src/mips_pipline/ComprehensivePipelineProcessor.py`,
`src/mips_pipline/InstructionDecoder.py`, `src/mips_pipline/PipelineStage.py`,
`src/mips_pipline/enums/ProcessorSignals.py`).

Conventions used throughout:
* Python `int` values are modelled as `Int` (arbitrary precision, like Python).
* A Python value that may be `None` is modelled as `Option _`; an empty detail
  dict `{}` used as a bubble is modelled as `none` as well, since every consumer
  in the source treats `{}` and `None` identically (falsy / missing-key tests).
* Machine words are `Nat` (the program supplies non-negative instruction words).
* Python list indexing `l[i]` with `-len l ≤ i < 0` wraps around; `i < -len l`
  raises `IndexError`.  Where the source can actually reach an out-of-range
  index (instruction fetch after a branch to a very negative target) we model
  the `IndexError` as `none` and propagate it, so `run_pipeline_cycle` and
  `simulate` return `Option` results (`none` = the Python code raises).
-/

/-- Instruction mnemonics (`Instruction` enum in `ProcessorSignals.py`). -/
inductive Mnemonic
  | ADD | SUB | AND | OR | NOR | XOR | SLT | SGT | SLL | SRL
  | ADDI | XORI | ORI | LW | SW | BNE | BLTZ | BGEZ | BEQ
  | JAL | J | NOP | BLTZ_BGEZ | UNKNOWN
deriving DecidableEq

/-- Instruction formats (`InstructionTypes` enum). -/
inductive InstrType
  | R | I | J
deriving DecidableEq

/-- Decoded instruction record (`InstructionDecoder.decode` output dict).
All keys are always present in the dict the decoder builds. -/
structure Decoded where
  opcode : Nat
  rs : Nat
  rt : Nat
  rd : Nat
  shamt : Nat
  funct : Nat
  immediate : Int
  address : Nat
  itype : InstrType
  mnemonic : Mnemonic
deriving DecidableEq

/-- `InstructionDecoder.get_instruction_type`. -/
def get_instruction_type (opcode : Nat) : InstrType :=
  if opcode = 0 then InstrType.R
  else if opcode = 2 ∨ opcode = 3 then InstrType.J
  else InstrType.I

/-- The `r_type_map` funct → mnemonic table. -/
def r_type_map (funct : Nat) : Mnemonic :=
  if funct = 0x20 then Mnemonic.ADD
  else if funct = 0x22 then Mnemonic.SUB
  else if funct = 0x24 then Mnemonic.AND
  else if funct = 0x25 then Mnemonic.OR
  else if funct = 0x27 then Mnemonic.NOR
  else if funct = 0x2A then Mnemonic.SLT
  else if funct = 0x26 then Mnemonic.XOR
  else if funct = 0x2B then Mnemonic.SGT
  else if funct = 0x00 then Mnemonic.SLL
  else if funct = 0x02 then Mnemonic.SRL
  else Mnemonic.UNKNOWN

/-- The `i_type_map` opcode → mnemonic table (its `0x01` entry is dead in the
source because opcode 1 is intercepted before the table lookup). -/
def i_type_map (opcode : Nat) : Mnemonic :=
  if opcode = 0x23 then Mnemonic.LW
  else if opcode = 0x2B then Mnemonic.SW
  else if opcode = 0x0D then Mnemonic.ORI
  else if opcode = 0x0E then Mnemonic.XORI
  else if opcode = 0x01 then Mnemonic.BLTZ_BGEZ
  else if opcode = 0x04 then Mnemonic.BEQ
  else if opcode = 0x05 then Mnemonic.BNE
  else if opcode = 0x08 then Mnemonic.ADDI
  else Mnemonic.UNKNOWN

/-- `InstructionDecoder.get_instruction_name`. -/
def get_instruction_name (opcode funct : Nat) : Mnemonic :=
  if opcode = 0 then r_type_map funct
  else if opcode = 2 then Mnemonic.J
  else if opcode = 3 then Mnemonic.JAL
  else if opcode = 1 then (if funct = 0 then Mnemonic.BLTZ else Mnemonic.BGEZ)
  else i_type_map opcode

/-- `InstructionDecoder.decode`: field extraction plus sign extension of the
16-bit immediate. -/
def decode (instruction : Nat) : Decoded :=
  let opcode := (instruction >>> 26) &&& 0x3F
  let rs := (instruction >>> 21) &&& 0x1F
  let rt := (instruction >>> 16) &&& 0x1F
  let rd := (instruction >>> 11) &&& 0x1F
  let shamt := (instruction >>> 6) &&& 0x1F
  let funct := instruction &&& 0x3F
  let imm0 := instruction &&& 0xFFFF
  let imm : Int := if imm0 &&& 0x8000 ≠ 0 then (imm0 : Int) - 0x10000 else (imm0 : Int)
  let address := instruction &&& 0x3FFFFFF
  { opcode := opcode, rs := rs, rt := rt, rd := rd, shamt := shamt,
    funct := funct, immediate := imm, address := address,
    itype := get_instruction_type opcode,
    mnemonic := get_instruction_name opcode funct }

/-- Forwarding record `{RegisterTypes.rd.value: ..., 'value': ...}` built in
`run_pipeline_cycle`; `value` holds `data.get('alu_result')`, which may be
Python `None` (e.g. for branches). -/
structure FwdRecord where
  rd : Nat
  value : Option Int
deriving DecidableEq

/-- Execute-stage result dict (lines 136-141 of the processor). -/
structure ExecResult where
  alu_result : Option Int
  decoded : Decoded
  branch_taken : Bool
  jump_address : Option Int
deriving DecidableEq

/-- Memory-stage result dict (lines 169-173 of the processor).  Note that it
carries exactly the keys `mem_result`, `decoded`, `alu_result` — in particular
no `jump_address` key. -/
structure MemResult where
  mem_result : Option Int
  decoded : Decoded
  alu_result : Option Int
deriving DecidableEq

/-- Whole-processor state: architectural state, the five stage latches
(each `instructions` list plus `details` list, as in `PipelineStage`),
and the two forwarding generations. -/
structure PState where
  memory : List Int
  registers : List Int
  issue_width : Nat
  ifInstr : List (Option Nat)
  ifDetails : List (Option (Int × Nat))
  idInstr : List (Option Mnemonic)
  idDetails : List (Option Decoded)
  exInstr : List (Option Mnemonic)
  exDetails : List (Option ExecResult)
  memInstr : List (Option Mnemonic)
  memDetails : List (Option MemResult)
  wbInstr : List (Option Mnemonic)
  wbDetails : List (Option MemResult)
  pc : Int
  cycle_count : Nat
  instruction_count : Nat
  program : List Nat
  fwdExMem : List (Option FwdRecord)
  fwdMemWb : List (Option FwdRecord)
  stall : Bool
deriving DecidableEq

/-- `ComprehensivePipelineProcessor.__init__`. -/
def initState (memory_size register_count issue_width : Nat) : PState :=
  { memory := List.replicate memory_size 0,
    registers := List.replicate register_count 0,
    issue_width := issue_width,
    ifInstr := List.replicate issue_width none,
    ifDetails := List.replicate issue_width none,
    idInstr := List.replicate issue_width none,
    idDetails := List.replicate issue_width none,
    exInstr := List.replicate issue_width none,
    exDetails := List.replicate issue_width none,
    memInstr := List.replicate issue_width none,
    memDetails := List.replicate issue_width none,
    wbInstr := List.replicate issue_width none,
    wbDetails := List.replicate issue_width none,
    pc := 0,
    cycle_count := 0,
    instruction_count := 0,
    program := [],
    fwdExMem := List.replicate issue_width none,
    fwdMemWb := List.replicate issue_width none,
    stall := false }

/-- `set_registers`: entries with index 0 or out of range are silently
ignored.  The Python dict is modelled as an association list iterated in
order. -/
def setRegStep (regs : List Int) (rv : Int × Int) : List Int :=
  if 0 ≤ rv.1 ∧ rv.1 < (regs.length : Int) ∧ rv.1 ≠ 0 then
    regs.set rv.1.toNat rv.2
  else regs

def set_registers (s : PState) (initial_values : List (Int × Int)) : PState :=
  { s with registers := initial_values.foldl setRegStep s.registers }

/-- Direct memory preload (`processor.memory[a] = v` style assignment done by
the demo drivers before `simulate`). -/
def storeMem (s : PState) (addr : Nat) (v : Int) : PState :=
  { s with memory := s.memory.set addr v }

/-- Core of `get_register_value`: scan `forwarding[EX_MEM] + forwarding[MEM_WB]`
for the first record with `fwd['rd'] == reg_num and reg_num != 0`, returning
its `value`; otherwise fall back to `registers[reg_num]`.
(All call sites pass 5-bit register numbers, in range for the default
register count of 32, so the fallback indexing cannot fault there.) -/
def grvCore (fe fm : List (Option FwdRecord)) (regs : List Int) (reg_num : Nat) :
    Option Int :=
  match (fe ++ fm).find? (fun o =>
      match o with
      | some r => r.rd == reg_num && reg_num != 0
      | none => false) with
  | some (some r) => r.value
  | _ => some (regs.getD reg_num 0)

/-- `get_register_value` on a processor state. -/
def get_register_value (s : PState) (reg_num : Nat) : Option Int :=
  grvCore s.fwdExMem s.fwdMemWb s.registers reg_num

/-- `get_source_registers`. -/
def get_source_registers (d : Decoded) : List Nat :=
  match d.itype with
  | InstrType.R => [d.rs, d.rt]
  | InstrType.I =>
      if d.mnemonic = Mnemonic.BEQ ∨ d.mnemonic = Mnemonic.BNE ∨
         d.mnemonic = Mnemonic.SW then [d.rs, d.rt] else [d.rs]
  | InstrType.J => []

/-- The destination-register expression `decoded.get('rd') or decoded.get('rt')`
used both by hazard detection and by the forwarding update.  Both keys are
always present; Python `or` falls through on the falsy value `0`. -/
def orDest (d : Decoded) : Nat :=
  if d.rd ≠ 0 then d.rd else d.rt

/-- One latch-scan of `detect_data_hazard`: does some non-empty slot of the
given Execute-latch details have destination in `srcs` and nonzero? -/
def exLatchHazard (details : List (Option ExecResult)) (srcs : List Nat) : Bool :=
  details.any (fun o =>
    match o with
    | some r => decide (orDest r.decoded ∈ srcs) && orDest r.decoded != 0
    | none => false)

/-- Same scan over the Memory-latch details. -/
def memLatchHazard (details : List (Option MemResult)) (srcs : List Nat) : Bool :=
  details.any (fun o =>
    match o with
    | some r => decide (orDest r.decoded ∈ srcs) && orDest r.decoded != 0
    | none => false)

/-- The intra-group clause of `detect_data_hazard`: for instruction `i`,
some *later* instruction `j > i` has destination in `i`'s sources,
with that destination nonzero. -/
def laterDestHazard (srcs : List Nat) (rest : List (Option Decoded)) : Bool :=
  rest.any (fun o =>
    match o with
    | some d2 => decide (orDest d2 ∈ srcs) && orDest d2 != 0
    | none => false)

/-- `detect_data_hazard`, as a function of the Execute- and Memory-latch
details (as they stand after this cycle's steps) and the freshly decoded
group.  The Python early `return True` is the disjunction of all clauses. -/
def detect_data_hazard (exD : List (Option ExecResult))
    (memD : List (Option MemResult)) : List (Option Decoded) → Bool
  | [] => false
  | none :: rest => detect_data_hazard exD memD rest
  | some d :: rest =>
      let srcs := get_source_registers d
      exLatchHazard exD srcs || memLatchHazard memD srcs ||
        laterDestHazard srcs rest || detect_data_hazard exD memD rest

/-- Python binary arithmetic on possibly-`None` operands.  A `None` operand
would raise `TypeError` in the source; the hazard stall makes that case
unreachable for operands the executing instruction actually uses (the source
registers of every mnemonic cover all operands its Execute code consumes), so
the dead case is modelled as `none`. -/
def pyBin (f : Int → Int → Int) : Option Int → Option Int → Option Int
  | some a, some b => some (f a b)
  | _, _ => none

/-- R-class ALU dispatch of `execute_stage` (lines 95-105).
`x & 0xFFFFFFFF` on a Python int equals `x mod 2^32`, and `~x = -x-1`;
`rt_val << shamt` is exact multiplication by `2^shamt`, and
`(rt_val & 0xFFFFFFFF) >> shamt` is floor division of the non-negative
masked value. -/
def rAlu (rs_val rt_val : Option Int) (shamt : Nat) : Mnemonic → Option Int
  | Mnemonic.ADD => pyBin (fun a b => a + b) rs_val rt_val
  | Mnemonic.SUB => pyBin (fun a b => a - b) rs_val rt_val
  | Mnemonic.AND => pyBin Int.land rs_val rt_val
  | Mnemonic.OR => pyBin Int.lor rs_val rt_val
  | Mnemonic.NOR => pyBin (fun a b => (-(Int.lor a b) - 1).emod 4294967296) rs_val rt_val
  | Mnemonic.XOR => pyBin Int.xor rs_val rt_val
  | Mnemonic.SLT => pyBin (fun a b => if a < b then 1 else 0) rs_val rt_val
  | Mnemonic.SGT => pyBin (fun a b => if b < a then 1 else 0) rs_val rt_val
  | Mnemonic.SLL => rt_val.map (fun v => v * 2 ^ shamt)
  | Mnemonic.SRL => rt_val.map (fun v => v.emod 4294967296 / 2 ^ shamt)
  | _ => none

/-- Non-branch I-class ALU dispatch of `execute_stage` (lines 107-110);
`imm & 0xFFFF` equals `imm mod 2^16`. -/
def iAlu (rs_val : Option Int) (imm : Int) : Mnemonic → Option Int
  | Mnemonic.ADDI => rs_val.map (fun a => a + imm)
  | Mnemonic.ORI => rs_val.map (fun a => Int.lor a (imm.emod 65536))
  | Mnemonic.XORI => rs_val.map (fun a => Int.xor a (imm.emod 65536))
  | Mnemonic.LW => rs_val.map (fun a => a + imm)
  | Mnemonic.SW => rs_val.map (fun a => a + imm)
  | _ => none

/-- Branch conditions of `execute_stage` (lines 111-122).  Python `==`/`!=`
compare `None` and ints without raising (`None == None` is `True`), which is
exactly `Option` equality.  `rs_val < 0` would raise on `None`; that case is
unreachable (hazard stall) and modelled as `false`. -/
def branchCond (rs_val rt_val : Option Int) : Mnemonic → Bool
  | Mnemonic.BEQ => rs_val == rt_val
  | Mnemonic.BNE => rs_val != rt_val
  | Mnemonic.BLTZ =>
      match rs_val with
      | some v => decide (v < 0)
      | none => false
  | Mnemonic.BGEZ =>
      match rs_val with
      | some v => decide (0 ≤ v)
      | none => false
  | _ => false

/-- Accumulator for the slot-by-slot loop of `execute_stage`: the mutable
state it threads (`self.pc`, `self.registers` via JAL, the shared
`branch_taken` / `jump_address` locals, and the growing `results` list). -/
structure ExecAcc where
  pc : Int
  registers : List Int
  branch_taken : Bool
  jump_address : Option Int
  results : List (Option ExecResult)
deriving DecidableEq

/-- One iteration of the `for decoded in decoded_instructions` loop of
`execute_stage`.  The mid-loop `flush_pipeline()` call is deferred to the
caller: nothing inside the loop reads the stage latches, and the Execute
latch is overwritten after the loop, so flushing once at the end (when
`branch_taken` ended up true) is observationally identical. -/
def execSlot (fe fm : List (Option FwdRecord)) (acc : ExecAcc) :
    Option Decoded → ExecAcc
  | none => { acc with results := acc.results ++ [none] }
  | some d =>
    let rs_val := grvCore fe fm acc.registers d.rs
    let rt_val := grvCore fe fm acc.registers d.rt
    let step : Option Int × List Int × Bool × Option Int :=
      match d.itype with
      | InstrType.R =>
          (rAlu rs_val rt_val d.shamt d.mnemonic,
           acc.registers, acc.branch_taken, acc.jump_address)
      | InstrType.I =>
          if d.mnemonic = Mnemonic.ADDI ∨ d.mnemonic = Mnemonic.ORI ∨
             d.mnemonic = Mnemonic.XORI ∨ d.mnemonic = Mnemonic.LW ∨
             d.mnemonic = Mnemonic.SW then
            (iAlu rs_val d.immediate d.mnemonic,
             acc.registers, acc.branch_taken, acc.jump_address)
          else if (d.mnemonic = Mnemonic.BEQ ∨ d.mnemonic = Mnemonic.BNE ∨
                   d.mnemonic = Mnemonic.BLTZ ∨ d.mnemonic = Mnemonic.BGEZ) ∧
                  branchCond rs_val rt_val d.mnemonic then
            (none, acc.registers, true, some (acc.pc + d.immediate))
          else (none, acc.registers, acc.branch_taken, acc.jump_address)
      | InstrType.J =>
          if d.mnemonic = Mnemonic.J then
            (none, acc.registers, true, some (d.address : Int))
          else if d.mnemonic = Mnemonic.JAL then
            (none, acc.registers.set 31 acc.pc, true, some (d.address : Int))
          else (none, acc.registers, acc.branch_taken, acc.jump_address)
    let result := step.1
    let regs1 := step.2.1
    let taken1 := step.2.2.1
    let jaddr1 := step.2.2.2
    let pc1 :=
      match taken1, jaddr1 with
      | true, some j => j
      | _, _ => acc.pc
    { pc := pc1, registers := regs1, branch_taken := taken1, jump_address := jaddr1,
      results := acc.results ++
        [some { alu_result := result, decoded := d, branch_taken := taken1,
                jump_address := jaddr1 }] }

/-- `execute_stage` as a fold over the decode group it consumes. -/
def execute_stage (fe fm : List (Option FwdRecord)) (registers : List Int)
    (pc : Int) (group : List (Option Decoded)) : ExecAcc :=
  group.foldl (execSlot fe fm)
    { pc := pc, registers := registers, branch_taken := false,
      jump_address := none, results := [] }

/-- One iteration of the `memory_stage_func` loop: threads the (possibly
store-mutated) memory and appends one result record.  `registers[rt]` for SW
uses a plain register-file read (no forwarding), as in the source. -/
def memSlot (regs : List Int) (st : List Int × List (Option MemResult)) :
    Option ExecResult → List Int × List (Option MemResult)
  | none => (st.1, st.2 ++ [none])
  | some r =>
    let memory := st.1
    let mn := r.decoded.mnemonic
    match r.alu_result with
    | some a =>
      if mn = Mnemonic.LW ∧ 0 ≤ a ∧ a < (memory.length : Int) then
        (memory, st.2 ++ [some { mem_result := some (memory.getD a.toNat 0),
                                 decoded := r.decoded, alu_result := some a }])
      else if mn = Mnemonic.SW ∧ 0 ≤ a ∧ a < (memory.length : Int) then
        (memory.set a.toNat (regs.getD r.decoded.rt 0),
         st.2 ++ [some { mem_result := some a, decoded := r.decoded,
                         alu_result := some a }])
      else
        (memory, st.2 ++ [some { mem_result := some a, decoded := r.decoded,
                                 alu_result := some a }])
    | none =>
      (memory, st.2 ++ [some { mem_result := none, decoded := r.decoded,
                               alu_result := none }])

/-- `memory_stage_func` over the Execute-latch details it consumes. -/
def memory_stage_func (memory regs : List Int)
    (exD : List (Option ExecResult)) : List Int × List (Option MemResult) :=
  exD.foldl (memSlot regs) (memory, [])

/-- Models `data.get(RegisterTypes.jump_address.value)` on a memory-stage
record: the dict built by `memory_stage_func` (lines 169-173) has exactly the
keys `mem_result`, `decoded`, `alu_result`, so this `get` always yields
Python `None`. -/
def memRecordJumpAddressGet (_ : MemResult) : Option Int := none

/-- One iteration of the `write_back_stage_func` loop (lines 185-203). -/
def wbSlot (pc : Int) (regs : List Int) : Option MemResult → List Int
  | none => regs
  | some m =>
    let d := m.decoded
    if (d.mnemonic = Mnemonic.ADD ∨ d.mnemonic = Mnemonic.SUB ∨
        d.mnemonic = Mnemonic.AND ∨ d.mnemonic = Mnemonic.OR ∨
        d.mnemonic = Mnemonic.NOR ∨ d.mnemonic = Mnemonic.XOR ∨
        d.mnemonic = Mnemonic.SLT ∨ d.mnemonic = Mnemonic.SGT ∨
        d.mnemonic = Mnemonic.SLL ∨ d.mnemonic = Mnemonic.SRL) ∧
       d.rd ≠ 0 ∧ m.alu_result ≠ none then
      regs.set d.rd (m.alu_result.getD 0)
    else if (d.mnemonic = Mnemonic.ADDI ∨ d.mnemonic = Mnemonic.ORI ∨
             d.mnemonic = Mnemonic.XORI) ∧ d.rt ≠ 0 ∧ m.alu_result ≠ none then
      regs.set d.rt (m.alu_result.getD 0)
    else if d.mnemonic = Mnemonic.LW ∧ d.rt ≠ 0 ∧ m.mem_result ≠ none then
      regs.set d.rt (m.mem_result.getD 0)
    else if d.mnemonic = Mnemonic.JAL ∧ memRecordJumpAddressGet m ≠ none then
      regs.set 31 pc
    else regs

/-- `write_back_stage_func`'s register commits over the Memory-latch details
it consumes (`self.pc` is read by the — dead — JAL clause). -/
def write_back_stage_func (pc : Int) (regs : List Int)
    (memory_data : List (Option MemResult)) : List Int :=
  memory_data.foldl (wbSlot pc) regs

/-- Python list indexing `l[i]`: non-negative indices (callers guarantee
`i < len l` via the `pc < len(program)` guard), negative indices wrap, and
`i < -len l` raises `IndexError`, modelled as `none`. -/
def pyListGet (l : List Nat) (i : Int) : Option Nat :=
  if 0 ≤ i then l.get? i.toNat
  else if 0 ≤ (l.length : Int) + i then l.get? ((l.length : Int) + i).toNat
  else none

/-- The `for _ in range(self.issue_width)` loop of `fetch_stage`: reads a word
and advances `pc` while `pc < len(program)`, else appends an empty slot.
`none` overall = the Python `IndexError` on a far-negative `pc`. -/
def fetchLoop (program : List Nat) (pc : Int) :
    Nat → Option (List (Option Nat) × Int)
  | 0 => some ([], pc)
  | n + 1 =>
    if pc < (program.length : Int) then
      match pyListGet program pc with
      | none => none
      | some w =>
        match fetchLoop program (pc + 1) n with
        | none => none
        | some (ws, pcF) => some (some w :: ws, pcF)
    else
      match fetchLoop program pc n with
      | none => none
      | some (ws, pcF) => some (none :: ws, pcF)

/-- `fetch_stage`: the fetched words, the IF-latch detail records
`{program_counter: pc - len(instructions) + i, raw_instruction: word}`,
and the advanced program counter. -/
def fetch_stage (program : List Nat) (pc : Int) (issue_width : Nat) :
    Option (List (Option Nat) × List (Option (Int × Nat)) × Int) :=
  match fetchLoop program pc issue_width with
  | none => none
  | some (ws, pcF) =>
    let details := ws.enum.map (fun iw =>
      match iw.2 with
      | some w => some (pcF - (ws.length : Int) + (iw.1 : Int), w)
      | none => none)
    some (ws, details, pcF)

/-- `flush_pipeline`: every stage latch cleared to `issue_width` empty slots. -/
def flush_pipeline (s : PState) : PState :=
  { s with
    ifInstr := List.replicate s.issue_width none,
    ifDetails := List.replicate s.issue_width none,
    idInstr := List.replicate s.issue_width none,
    idDetails := List.replicate s.issue_width none,
    exInstr := List.replicate s.issue_width none,
    exDetails := List.replicate s.issue_width none,
    memInstr := List.replicate s.issue_width none,
    memDetails := List.replicate s.issue_width none,
    wbInstr := List.replicate s.issue_width none,
    wbDetails := List.replicate s.issue_width none }

/-- Read-only per-cycle observables: the hazard flag, the freshly decoded
group the hazard check ran on, and the instruction words fetched this cycle
(`[None]*issue_width` on a stall). -/
structure CycleTrace where
  hazard : Bool
  group : List (Option Decoded)
  fetched : List (Option Nat)
deriving DecidableEq

/-- Steps 1-4 of `run_pipeline_cycle` (lines 252-259): cycle counter,
write-back, memory, execute (with its possible taken-branch flush), and
decode.  Returns the updated state together with the freshly decoded group
the hazard check will consume. -/
def cycleFront (s : PState) : PState × List (Option Decoded) :=
  let s1 := { s with cycle_count := s.cycle_count + 1 }
  let regs1 := write_back_stage_func s1.pc s1.registers s1.memDetails
  let wbI := s1.memDetails.map (Option.map (fun m => m.decoded.mnemonic))
  let wbD := if s1.memDetails.isEmpty then List.replicate s1.issue_width none
             else s1.memDetails
  let memOut := memory_stage_func s1.memory regs1 s1.exDetails
  let memI := s1.exDetails.map (Option.map (fun r => r.decoded.mnemonic))
  let out := execute_stage s1.fwdExMem s1.fwdMemWb regs1 s1.pc s1.idDetails
  let exI := s1.idDetails.map (Option.map (fun d => d.mnemonic))
  let s2 := { s1 with registers := out.registers, pc := out.pc,
                      memory := memOut.1, wbInstr := wbI, wbDetails := wbD,
                      memInstr := memI, memDetails := memOut.2 }
  let s3 := if out.branch_taken then flush_pipeline s2 else s2
  let s4 := { s3 with exInstr := exI, exDetails := out.results }
  let group := s4.ifInstr.map (Option.map decode)
  let s5 := { s4 with idInstr := group.map (Option.map (fun d => d.mnemonic)),
                      idDetails := group }
  (s5, group)

/-- The forwarding record `run_pipeline_cycle` builds from an Execute-latch
slot: `{rd: decoded.get('rd') or decoded.get('rt'), value: data.get('alu_result')}`,
or nothing for an empty slot. -/
def mkFwdRecord : Option ExecResult → Option FwdRecord
  | none => none
  | some r => some { rd := orDest r.decoded, value := r.alu_result }

/-- `run_pipeline_cycle` (lines 252-284): steps 1-4, the hazard check with
its flush-or-fetch alternative, and the forwarding-generation shift.
`none` = the cycle raised (`IndexError` in fetch). -/
def run_pipeline_cycle (s : PState) : Option (PState × CycleTrace) :=
  let front := cycleFront s
  let m := front.1
  let group := front.2
  let hazard := detect_data_hazard m.exDetails m.memDetails group
  if hazard then
    let m1 := flush_pipeline m
    let m2 := { m1 with fwdMemWb := m1.fwdExMem,
                        fwdExMem := m1.exDetails.map mkFwdRecord }
    some (m2, { hazard := true, group := group,
                fetched := List.replicate s.issue_width none })
  else
    match fetch_stage m.program m.pc m.issue_width with
    | none => none
    | some (ws, dts, pcF) =>
      let m1 := { m with ifInstr := ws, ifDetails := dts, pc := pcF }
      let m2 := { m1 with fwdMemWb := m1.fwdExMem,
                          fwdExMem := m1.exDetails.map mkFwdRecord }
      some (m2, { hazard := false, group := group, fetched := ws })

/-- `run_pipeline_cycle` as a state step (dropping the observables). -/
def runCycle (s : PState) : Option PState :=
  (run_pipeline_cycle s).map Prod.fst

/-- Iterated cycles (the trace of states the run loop visits). -/
def stepN : Nat → PState → Option PState
  | 0, s => some s
  | n + 1, s => (runCycle s).bind (stepN n)

/-- The `while` condition of `simulate`: program not fully consumed, or some
stage latch still holds an instruction. -/
def anyStageBusy (s : PState) : Bool :=
  s.ifInstr.any Option.isSome || s.idInstr.any Option.isSome ||
  s.exInstr.any Option.isSome || s.memInstr.any Option.isSome ||
  s.wbInstr.any Option.isSome

/-- `simulate`'s loop condition. -/
def loopCond (s : PState) : Bool :=
  decide (s.pc < (s.program.length : Int)) || anyStageBusy s

/-- The cycle counter is incremented once at the start of the cycle and never
touched again. -/
theorem cycleFront_cycle_count (s : PState) :
    (cycleFront s).1.cycle_count = s.cycle_count + 1 := by
  simp only [cycleFront, flush_pipeline]
  split <;> rfl

/-- A successful `run_pipeline_cycle` advances the cycle counter by one. -/
theorem runCycle_cycle_count {s s' : PState} (h : runCycle s = some s') :
    s'.cycle_count = s.cycle_count + 1 := by
  have hcf := cycleFront_cycle_count s
  simp only [runCycle, Option.map_eq_some'] at h
  obtain ⟨p, hp, hfst⟩ := h
  subst hfst
  simp only [run_pipeline_cycle] at hp
  split at hp
  · cases hp
    simpa [flush_pipeline] using hcf
  · split at hp
    · cases hp
    · cases hp
      simpa using hcf

/-- The `while` loop of `simulate` (lines 292-296), made structurally
recursive on `max_cycles - cycle_count`.  When that difference is zero and
the drain condition still holds, the `cycle_count >= max_cycles` break fires
and returns the state (and if the drain condition fails the loop also just
returns the state), so the 0 case is `some s` either way.  When it is
nonzero, `cycle_count < max_cycles`, the break cannot fire, and the body runs
one cycle; every successful cycle increments `cycle_count` by exactly one
(`runCycle_cycle_count`), so the difference decreases by one — this function,
seeded below with `max_cycles - cycle_count`, is the source's loop.
`none` = some cycle raised. -/
def simGo : Nat → PState → Nat → Option PState
  | 0, s, _ => some s
  | n + 1, s, max_cycles =>
      if loopCond s then
        match runCycle s with
        | none => none
        | some s' => simGo n s' max_cycles
      else some s

def simLoop (s : PState) (max_cycles : Nat) : Option PState :=
  simGo (max_cycles - s.cycle_count) s max_cycles

/-- `simulate`: install the program, then run the loop. -/
def simulate (s : PState) (program : List Nat) (max_cycles : Nat) :
    Option PState :=
  simLoop { s with program := program } max_cycles

/-- The Execute-stage outcome of a cycle started from `s`: operand reads use
the forwarding generations of `s` and the registers as already committed by
this cycle's write-back. -/
def execOf (s : PState) : ExecAcc :=
  execute_stage s.fwdExMem s.fwdMemWb
    (write_back_stage_func s.pc s.registers s.memDetails) s.pc s.idDetails

theorem cycleFront_issue_width (s : PState) :
    (cycleFront s).1.issue_width = s.issue_width := by
  simp only [cycleFront, flush_pipeline]
  split <;> rfl

theorem cycleFront_program (s : PState) :
    (cycleFront s).1.program = s.program := by
  simp only [cycleFront, flush_pipeline]
  split <;> rfl

theorem cycleFront_pc (s : PState) :
    (cycleFront s).1.pc = (execOf s).pc := by
  simp only [cycleFront, flush_pipeline, execOf, execute_stage]
  split <;> rfl

theorem cycleFront_registers (s : PState) :
    (cycleFront s).1.registers = (execOf s).registers := by
  simp only [cycleFront, flush_pipeline, execOf, execute_stage]
  split <;> rfl

theorem cycleFront_exDetails (s : PState) :
    (cycleFront s).1.exDetails = (execOf s).results := rfl

theorem cycleFront_fwdExMem (s : PState) :
    (cycleFront s).1.fwdExMem = s.fwdExMem := by
  simp only [cycleFront, flush_pipeline]
  split <;> rfl

theorem cycleFront_fwdMemWb (s : PState) :
    (cycleFront s).1.fwdMemWb = s.fwdMemWb := by
  simp only [cycleFront, flush_pipeline]
  split <;> rfl

theorem cycleFront_ifInstr (s : PState) :
    (cycleFront s).1.ifInstr =
      if (execOf s).branch_taken then List.replicate s.issue_width none
      else s.ifInstr := by
  simp only [cycleFront, flush_pipeline, execOf, execute_stage]
  split <;> rfl

theorem cycleFront_memDetails (s : PState) :
    (cycleFront s).1.memDetails =
      if (execOf s).branch_taken then List.replicate s.issue_width none
      else (memory_stage_func s.memory
            (write_back_stage_func s.pc s.registers s.memDetails) s.exDetails).2 := by
  simp only [cycleFront, flush_pipeline, execOf, execute_stage, memory_stage_func,
    write_back_stage_func]
  split <;> rfl

theorem cycleFront_group (s : PState) :
    (cycleFront s).2 = (cycleFront s).1.ifInstr.map (Option.map decode) := rfl

theorem cycleFront_idDetails (s : PState) :
    (cycleFront s).1.idDetails = (cycleFront s).2 := rfl

/-- `branch_taken` is a shared local that no slot ever resets. -/
theorem execSlot_taken_monotone (fe fm : List (Option FwdRecord)) (acc : ExecAcc)
    (o : Option Decoded) (h : acc.branch_taken = true) :
    (execSlot fe fm acc o).branch_taken = true := by
  cases o with
  | none => simpa [execSlot] using h
  | some d =>
      simp only [execSlot]
      cases hty : d.itype <;> simp only [hty] <;> (try split_ifs) <;> simp_all

theorem exec_foldl_taken_monotone (fe fm : List (Option FwdRecord))
    (group : List (Option Decoded)) :
    ∀ acc : ExecAcc, acc.branch_taken = true →
      (group.foldl (execSlot fe fm) acc).branch_taken = true := by
  induction group with
  | nil => intro acc h; simpa using h
  | cons o rest ih =>
      intro acc h
      exact ih (execSlot fe fm acc o) (execSlot_taken_monotone fe fm acc o h)

/-- A slot that leaves `branch_taken` false changed neither the program
counter nor the register file. -/
theorem execSlot_not_taken (fe fm : List (Option FwdRecord)) (acc : ExecAcc)
    (o : Option Decoded) (h : (execSlot fe fm acc o).branch_taken = false) :
    (execSlot fe fm acc o).pc = acc.pc ∧
      (execSlot fe fm acc o).registers = acc.registers ∧
      acc.branch_taken = false := by
  cases o with
  | none => simpa [execSlot] using h
  | some d =>
      simp only [execSlot] at h ⊢
      cases hty : d.itype <;> simp only [hty] at h ⊢ <;>
        (try split_ifs at h ⊢) <;> simp_all

theorem exec_foldl_not_taken (fe fm : List (Option FwdRecord))
    (group : List (Option Decoded)) :
    ∀ acc : ExecAcc, (group.foldl (execSlot fe fm) acc).branch_taken = false →
      (group.foldl (execSlot fe fm) acc).pc = acc.pc ∧
        (group.foldl (execSlot fe fm) acc).registers = acc.registers := by
  induction group with
  | nil => intro acc _; exact ⟨rfl, rfl⟩
  | cons o rest ih =>
      intro acc h
      simp only [List.foldl_cons] at h ⊢
      have hslot : (execSlot fe fm acc o).branch_taken = false := by
        by_contra hb
        have := exec_foldl_taken_monotone fe fm rest (execSlot fe fm acc o)
          (by cases hbt : (execSlot fe fm acc o).branch_taken with
              | true => rfl
              | false => exact absurd hbt hb)
        rw [this] at h
        cases h
      obtain ⟨hpc, hregs, _⟩ := execSlot_not_taken fe fm acc o hslot
      obtain ⟨hpc2, hregs2⟩ := ih (execSlot fe fm acc o) h
      exact ⟨hpc2.trans hpc, hregs2.trans hregs⟩

/-- The hazard check on an all-empty decode group always reports no hazard. -/
theorem detect_replicate_none (exD : List (Option ExecResult))
    (memD : List (Option MemResult)) (n : Nat) :
    detect_data_hazard exD memD (List.replicate n none) = false := by
  induction n with
  | zero => rfl
  | succ k ih => simpa [List.replicate_succ, detect_data_hazard] using ih

/-- If Execute took a branch this cycle, the freshly decoded group is all
bubbles (the IF latch was flushed before decode read it). -/
theorem cycleFront_group_of_taken (s : PState)
    (h : (execOf s).branch_taken = true) :
    (cycleFront s).2 = List.replicate s.issue_width none := by
  rw [cycleFront_group, cycleFront_ifInstr, h]
  simp

/-- If the hazard flag is up, Execute cannot have taken a branch this cycle. -/
theorem hazard_imp_not_taken (s : PState)
    (h : detect_data_hazard (cycleFront s).1.exDetails (cycleFront s).1.memDetails
          (cycleFront s).2 = true) :
    (execOf s).branch_taken = false := by
  by_contra hb
  have htk : (execOf s).branch_taken = true := by
    cases hbt : (execOf s).branch_taken with
    | true => rfl
    | false => exact absurd hbt hb
  rw [cycleFront_group_of_taken s htk, detect_replicate_none] at h
  cases h

/-- Write-back over an all-empty Memory latch commits nothing. -/
theorem wb_replicate_none (pc : Int) (regs : List Int) (n : Nat) :
    write_back_stage_func pc regs (List.replicate n none) = regs := by
  induction n with
  | zero => rfl
  | succ k ih =>
      simpa [List.replicate_succ, write_back_stage_func, wbSlot] using ih

/-- The intra-group dependency `detect_data_hazard` actually stalls on:
some earlier instruction's source-register set contains a *later*
instruction's nonzero destination register. -/
def intraGroupPattern : List (Option Decoded) → Bool
  | [] => false
  | none :: rest => intraGroupPattern rest
  | some d :: rest =>
      laterDestHazard (get_source_registers d) rest || intraGroupPattern rest

/-- The dependency pattern as claim C1 words it: some *later* slot's
instruction has a source register equal to an *earlier* slot's nonzero
destination register. -/
def claimedRawPattern : List (Option Decoded) → Bool
  | [] => false
  | none :: rest => claimedRawPattern rest
  | some d :: rest =>
      rest.any (fun o =>
        match o with
        | some d2 => decide (orDest d ∈ get_source_registers d2) && orDest d != 0
        | none => false) || claimedRawPattern rest

/-- The intra-group clause implies the full hazard check fires. -/
theorem intra_imp_detect (exD : List (Option ExecResult))
    (memD : List (Option MemResult)) (g : List (Option Decoded))
    (h : intraGroupPattern g = true) :
    detect_data_hazard exD memD g = true := by
  induction g with
  | nil => cases h
  | cons o rest ih =>
      cases o with
      | none =>
          simp only [intraGroupPattern] at h
          simpa [detect_data_hazard] using ih h
      | some d =>
          simp only [intraGroupPattern, Bool.or_eq_true] at h
          rcases h with h | h
          · simp [detect_data_hazard, h]
          · simp [detect_data_hazard, ih h]

/-- C2: in a hazard cycle, every stage latch ends the cycle all-empty, the
program counter is unchanged, and nothing was fetched from the program. -/
theorem C2_hazard_cycle_flushes_all_latches (s s' : PState) (tr : CycleTrace)
    (h : run_pipeline_cycle s = some (s', tr)) (hz : tr.hazard = true) :
    s'.ifInstr = List.replicate s.issue_width none ∧
    s'.ifDetails = List.replicate s.issue_width none ∧
    s'.idInstr = List.replicate s.issue_width none ∧
    s'.idDetails = List.replicate s.issue_width none ∧
    s'.exInstr = List.replicate s.issue_width none ∧
    s'.exDetails = List.replicate s.issue_width none ∧
    s'.memInstr = List.replicate s.issue_width none ∧
    s'.memDetails = List.replicate s.issue_width none ∧
    s'.wbInstr = List.replicate s.issue_width none ∧
    s'.wbDetails = List.replicate s.issue_width none ∧
    s'.pc = s.pc ∧
    tr.fetched = List.replicate s.issue_width none := by
  simp only [run_pipeline_cycle] at h
  split at h
  · rename_i hdet
    simp only [Option.some.injEq, Prod.mk.injEq] at h
    obtain ⟨hs, ht⟩ := h
    subst hs
    subst ht
    have hnt : (execOf s).branch_taken = false := hazard_imp_not_taken s hdet
    have hpc : (execOf s).pc = s.pc :=
      (exec_foldl_not_taken s.fwdExMem s.fwdMemWb s.idDetails _ hnt).1
    have hw := cycleFront_issue_width s
    have hmp := cycleFront_pc s
    refine ⟨?_, ?_, ?_, ?_, ?_, ?_, ?_, ?_, ?_, ?_, ?_, rfl⟩ <;>
      simp [flush_pipeline, hw, hmp, hpc]
  · split at h
    · cases h
    · simp only [Option.some.injEq, Prod.mk.injEq] at h
      obtain ⟨hs, ht⟩ := h
      rw [← ht] at hz
      cases hz

/-- A freshly constructed processor (16-word memory, 32 registers, dual
issue) with a program installed, as `simulate` does before its loop. -/
def procWithProgram (p : List Nat) : PState :=
  { initState 16 32 2 with program := p }

/-- `ADD r1,r2,r3 ; ADD r4,r1,r0`: the later slot's source `r1` equals the
earlier slot's nonzero destination `r1` (the classic intra-group RAW pair). -/
def c1ClaimProg : List Nat := [0x00430820, 0x00202020]

/-- C1 counterexample: in cycle 2 the freshly decoded group exhibits the
pattern exactly as the claim words it — a later slot's source register equals
an earlier slot's nonzero destination register — yet the cycle's hazard flag
is `false` (the code compares an *earlier* slot's sources against a *later*
slot's destination, not the other way round). -/
theorem C1_later_source_pattern_not_flagged :
    ((stepN 1 (procWithProgram c1ClaimProg)).bind
        (fun s => (run_pipeline_cycle s).map
          (fun p => (claimedRawPattern p.2.group, p.2.hazard)))) =
      some (true, false) := by decide

/-- C1 (amended): when an *earlier* slot's source-register set contains a
*later* slot's nonzero destination in the freshly decoded group, the cycle
reports the hazard flag set, the Memory latch ends the cycle empty, and hence
the following cycle's write-back performs no register write at all. -/
theorem C1_earlier_source_later_dest_stalls (s s' : PState) (tr : CycleTrace)
    (h : run_pipeline_cycle s = some (s', tr))
    (hp : intraGroupPattern tr.group = true) :
    tr.hazard = true ∧
      s'.memDetails = List.replicate s.issue_width none ∧
      write_back_stage_func s'.pc s'.registers s'.memDetails = s'.registers := by
  simp only [run_pipeline_cycle] at h
  split at h
  · simp only [Option.some.injEq, Prod.mk.injEq] at h
    obtain ⟨hs, ht⟩ := h
    subst hs
    subst ht
    refine ⟨rfl, ?_, ?_⟩ <;>
      simp [flush_pipeline, cycleFront_issue_width s, wb_replicate_none]
  · rename_i hdet
    split at h
    · cases h
    · simp only [Option.some.injEq, Prod.mk.injEq] at h
      obtain ⟨hs, ht⟩ := h
      rw [← ht] at hp
      exact absurd (intra_imp_detect _ _ _ hp) hdet

/-- `ADD r2,r1,r0 ; ADDI r1,r0,7`: the earlier slot sources `r1`, the later
slot's destination is `r1` — the direction the code stalls on. -/
def c2Prog : List Nat := [0x00201020, 0x20010007]

/-- The state after cycle 1 of `c2Prog` (group fetched, about to decode). -/
def c2S1 : PState :=
  (stepN 1 (procWithProgram c2Prog)).getD (procWithProgram c2Prog)

/-- The result of the hazard cycle (cycle 2) on `c2Prog`. -/
def c2Res : PState × CycleTrace :=
  (run_pipeline_cycle c2S1).getD
    (c2S1, { hazard := false, group := [], fetched := [] })

/-- Witness for the amended C1 at a concrete two-instruction program. -/
theorem C1_earlier_source_later_dest_stalls_witness :
    run_pipeline_cycle c2S1 = some (c2Res.1, c2Res.2) ∧
      intraGroupPattern c2Res.2.group = true ∧
      (c2Res.2.hazard = true ∧
        c2Res.1.memDetails = List.replicate c2S1.issue_width none ∧
        write_back_stage_func c2Res.1.pc c2Res.1.registers c2Res.1.memDetails =
          c2Res.1.registers) :=
  ⟨by decide, by decide,
    C1_earlier_source_later_dest_stalls c2S1 c2Res.1 c2Res.2 (by decide) (by decide)⟩

/-- Witness for C2 at the same concrete hazard cycle. -/
theorem C2_hazard_cycle_flushes_all_latches_witness :
    run_pipeline_cycle c2S1 = some (c2Res.1, c2Res.2) ∧ c2Res.2.hazard = true ∧
      (c2Res.1.ifInstr = List.replicate c2S1.issue_width none ∧
       c2Res.1.ifDetails = List.replicate c2S1.issue_width none ∧
       c2Res.1.idInstr = List.replicate c2S1.issue_width none ∧
       c2Res.1.idDetails = List.replicate c2S1.issue_width none ∧
       c2Res.1.exInstr = List.replicate c2S1.issue_width none ∧
       c2Res.1.exDetails = List.replicate c2S1.issue_width none ∧
       c2Res.1.memInstr = List.replicate c2S1.issue_width none ∧
       c2Res.1.memDetails = List.replicate c2S1.issue_width none ∧
       c2Res.1.wbInstr = List.replicate c2S1.issue_width none ∧
       c2Res.1.wbDetails = List.replicate c2S1.issue_width none ∧
       c2Res.1.pc = c2S1.pc ∧
       c2Res.2.fetched = List.replicate c2S1.issue_width none) :=
  ⟨by decide, by decide,
    C2_hazard_cycle_flushes_all_latches c2S1 c2Res.1 c2Res.2 (by decide) (by decide)⟩

/-- Setting a nonzero index leaves entry 0 of the register file unchanged. -/
theorem getD_zero_set_ne (l : List Int) (i : Nat) (v : Int) (h : i ≠ 0) :
    (l.set i v).getD 0 0 = l.getD 0 0 := by
  cases l with
  | nil => simp
  | cons a t =>
      cases i with
      | zero => exact absurd rfl h
      | succ k => simp [List.set]

theorem setRegStep_reg0 (regs : List Int) (rv : Int × Int) :
    (setRegStep regs rv).getD 0 0 = regs.getD 0 0 := by
  unfold setRegStep
  split_ifs with h
  · exact getD_zero_set_ne _ _ _ (by omega)
  · rfl

theorem foldl_setReg_reg0 (vals : List (Int × Int)) :
    ∀ regs : List Int, (vals.foldl setRegStep regs).getD 0 0 = regs.getD 0 0 := by
  induction vals with
  | nil => intro regs; rfl
  | cons rv rest ih =>
      intro regs
      simp only [List.foldl_cons]
      rw [ih, setRegStep_reg0]

/-- Every write-back register commit targets a nonzero index (the JAL clause
would target 31, and anyway never fires). -/
theorem wbSlot_reg0 (pc : Int) (regs : List Int) (o : Option MemResult) :
    (wbSlot pc regs o).getD 0 0 = regs.getD 0 0 := by
  cases o with
  | none => rfl
  | some m =>
      simp only [wbSlot]
      split_ifs with h1 h2 h3 h4
      · exact getD_zero_set_ne _ _ _ h1.2.1
      · exact getD_zero_set_ne _ _ _ h2.2.1
      · exact getD_zero_set_ne _ _ _ h3.2.1
      · exact getD_zero_set_ne _ _ _ (by decide)
      · rfl

theorem wb_reg0 (pc : Int) (data : List (Option MemResult)) :
    ∀ regs : List Int,
      (write_back_stage_func pc regs data).getD 0 0 = regs.getD 0 0 := by
  induction data with
  | nil => intro regs; rfl
  | cons o rest ih =>
      intro regs
      simp only [write_back_stage_func, List.foldl_cons] at *
      rw [ih (wbSlot pc regs o), wbSlot_reg0]

/-- Execute writes registers only through JAL's `registers[31] = pc`. -/
theorem execSlot_reg0 (fe fm : List (Option FwdRecord)) (acc : ExecAcc)
    (o : Option Decoded) :
    (execSlot fe fm acc o).registers.getD 0 0 = acc.registers.getD 0 0 := by
  cases o with
  | none => rfl
  | some d =>
      simp only [execSlot]
      cases hty : d.itype <;> simp only [hty] <;> (try split_ifs) <;>
        first
          | rfl
          | exact getD_zero_set_ne _ _ _ (by decide)

theorem exec_reg0 (fe fm : List (Option FwdRecord))
    (group : List (Option Decoded)) :
    ∀ acc : ExecAcc,
      (group.foldl (execSlot fe fm) acc).registers.getD 0 0 =
        acc.registers.getD 0 0 := by
  induction group with
  | nil => intro acc; rfl
  | cons o rest ih =>
      intro acc
      simp only [List.foldl_cons]
      rw [ih, execSlot_reg0]

/-- A successful cycle leaves the registers exactly as Execute left them. -/
theorem runCycle_registers {s s' : PState} (h : runCycle s = some s') :
    s'.registers = (execOf s).registers := by
  simp only [runCycle, Option.map_eq_some'] at h
  obtain ⟨p, hp, hfst⟩ := h
  subst hfst
  simp only [run_pipeline_cycle] at hp
  split at hp
  · cases hp
    simpa [flush_pipeline] using cycleFront_registers s
  · split at hp
    · cases hp
    · cases hp
      simpa using cycleFront_registers s

/-- States reachable through construction, the initial-state setters, program
installation, and successful pipeline cycles. -/
inductive Reachable : PState → Prop
  | init (memory_size register_count issue_width : Nat) :
      Reachable (initState memory_size register_count issue_width)
  | setRegs {s : PState} (vals : List (Int × Int)) :
      Reachable s → Reachable (set_registers s vals)
  | preload {s : PState} (addr : Nat) (v : Int) :
      Reachable s → Reachable (storeMem s addr v)
  | install {s : PState} (p : List Nat) :
      Reachable s → Reachable { s with program := p }
  | step {s s' : PState} : Reachable s → runCycle s = some s' → Reachable s'

/-- The `register[0] == 0` invariant over all reachable states. -/
theorem reachable_reg0 {s : PState} (h : Reachable s) :
    s.registers.getD 0 0 = 0 := by
  induction h with
  | init ms rc w => cases rc <;> simp [initState, List.replicate_succ]
  | setRegs vals hr ih =>
      simp only [set_registers]
      rw [foldl_setReg_reg0]
      exact ih
  | preload addr v hr ih => simpa [storeMem] using ih
  | install p hr ih => simpa using ih
  | step hr hstep ih =>
      rename_i s s'
      rw [runCycle_registers hstep]
      show ((execute_stage s.fwdExMem s.fwdMemWb
        (write_back_stage_func s.pc s.registers s.memDetails) s.pc
        s.idDetails)).registers.getD 0 0 = 0
      rw [execute_stage, exec_reg0]
      show (write_back_stage_func s.pc s.registers s.memDetails).getD 0 0 = 0
      rw [wb_reg0]
      exact ih

/-- C7: for every program, initial-register mapping, memory preload, and any
number of pipeline cycles, every state reachable through construction,
`set_registers`, and `run_pipeline_cycle` steps has `register[0] == 0`. -/
theorem C7_register_zero_invariant (s : PState) (h : Reachable s) :
    s.registers.getD 0 0 = 0 :=
  reachable_reg0 h

/-- Witness for C7 at a concrete reachable state. -/
theorem C7_register_zero_invariant_witness :
    (set_registers (procWithProgram []) [(3, 7)]).registers.getD 0 0 = 0 :=
  C7_register_zero_invariant _
    (Reachable.setRegs [(3, 7)] (Reachable.install [] (Reachable.init 16 32 2)))

/-- `find?` only depends on the pointwise behavior of its predicate. -/
theorem find?_pred_eq {α : Type} (l : List α) (p q : α → Bool)
    (h : ∀ x, p x = q x) : l.find? p = l.find? q := by
  induction l with
  | nil => rfl
  | cons a t ih =>
      simp only [List.find?]
      rw [h a]
      cases q a <;> simp [ih]

/-- `read_register` as §4.3 of the spec words it: 0 for register 0, else the
value of the first record (one-cycle-old then two-cycle-old generation) whose
destination equals `n`, else `register[n]`. -/
def readRegisterSpec (s : PState) (n : Nat) : Option Int :=
  if n = 0 then some 0
  else
    match (s.fwdExMem ++ s.fwdMemWb).find? (fun o =>
        match o with
        | some r => r.rd == n
        | none => false) with
    | some (some r) => r.value
    | some none => some (s.registers.getD n 0)
    | none => some (s.registers.getD n 0)

/-- C5: on every reachable state, the operand read implements exactly the
spec's `read_register` (the `n = 0` case returns 0 because the register-file
fallback reads the invariant `register[0]`). -/
theorem C5_read_register_follows_spec (s : PState) (h : Reachable s) (n : Nat) :
    get_register_value s n = readRegisterSpec s n := by
  by_cases h0 : n = 0
  · subst h0
    have hfind : (s.fwdExMem ++ s.fwdMemWb).find? (fun o =>
        match o with
        | some r => r.rd == 0 && 0 != 0
        | none => false) = none := by
      apply List.find?_eq_none.mpr
      intro x _
      cases x <;> simp
    unfold get_register_value grvCore readRegisterSpec
    rw [hfind]
    simp only [Option.some.injEq]
    simpa using reachable_reg0 h
  · have hpred : ∀ o : Option FwdRecord,
        (match o with
         | some r => r.rd == n && n != 0
         | none => false) =
        (match o with
         | some r => r.rd == n
         | none => false) := by
      intro o
      cases o with
      | none => rfl
      | some r => simp [h0]
    simp only [get_register_value, grvCore, readRegisterSpec, if_neg h0]
    rw [find?_pred_eq _ _ _ hpred]
    generalize (s.fwdExMem ++ s.fwdMemWb).find? (fun o =>
        match o with
        | some r => r.rd == n
        | none => false) = res
    rcases res with _ | (_ | r) <;> rfl

/-- Witness for C5 at a concrete reachable state and register index. -/
theorem C5_read_register_follows_spec_witness :
    get_register_value (procWithProgram []) 0 =
        readRegisterSpec (procWithProgram []) 0 ∧
      readRegisterSpec (procWithProgram []) 0 = some 0 :=
  ⟨C5_read_register_follows_spec _
      (Reachable.install [] (Reachable.init 16 32 2)) 0,
    by decide⟩

/-- `ADD r0,r0,r0` (word 0x20): both `rd` and `rt` are 0, so the per-cycle
forwarding update emits a record with destination register 0. -/
def c4Prog : List Nat := [0x00000020]

/-- C4 counterexample: after the `ADD r0,r0,r0` executes (cycle 3), the
one-cycle-old forwarding generation holds a non-empty record whose
destination register is 0 — such records *are* emitted. -/
theorem C4_zero_destination_record_emitted :
    (stepN 3 (procWithProgram c4Prog)).map
        (fun s => s.fwdExMem.map (Option.map (fun r => (r.rd, r.value)))) =
      some [some (0, some 0), none] := by decide

/-- Drop every destination-0 record of a forwarding generation. -/
def dropZeroDest (g : List (Option FwdRecord)) : List (Option FwdRecord) :=
  g.filter (fun o =>
    match o with
    | some r => r.rd != 0
    | none => true)

/-- Filtering out elements the predicate can never select leaves `find?`
unchanged. -/
theorem find?_filter_of_imp {α : Type} (l : List α) (p q : α → Bool)
    (h : ∀ x, p x = true → q x = true) :
    (l.filter q).find? p = l.find? p := by
  induction l with
  | nil => rfl
  | cons a t ih =>
      by_cases hq : q a = true
      · rw [List.filter_cons_of_pos hq]
        simp only [List.find?]
        cases hp : p a <;> simp [ih]
      · rw [List.filter_cons_of_neg (by simpa using hq)]
        have hp : p a = false := by
          cases hpa : p a
          · rfl
          · exact absurd (h a hpa) hq
        simp only [List.find?, hp]
        exact ih

/-- C4 (amended): a destination-0 ForwardingRecord can be emitted (exactly
when both `rd` and `rt` are 0) but is never honored: removing every
destination-0 record from both generations changes no operand read. -/
theorem C4_zero_destination_never_honored (fe fm : List (Option FwdRecord))
    (regs : List Int) (n : Nat) :
    grvCore (dropZeroDest fe) (dropZeroDest fm) regs n =
      grvCore fe fm regs n := by
  unfold grvCore dropZeroDest
  rw [← List.filter_append]
  rw [find?_filter_of_imp]
  intro o ho
  cases o with
  | none => cases ho
  | some r =>
      simp only [Bool.and_eq_true, beq_iff_eq, bne_iff_ne, ne_eq] at ho ⊢
      intro hr0
      exact ho.2 (by omega)

/-- `BNE r1,r2` whose rd-field bits (part of the immediate) decode to 3:
not taken when `r1 == r2`, its ALU result stays `None`, yet the forwarding
update emits `{rd: 3, value: None}`. -/
def c8Prog : List Nat := [0x14221800]

/-- C8 counterexample: after cycle 3 the one-cycle-old generation holds a
record with destination 3 carrying value `None`, and the operand read of
register 3 returns that `None` — not an integer. -/
theorem C8_read_returns_none :
    (stepN 3 (procWithProgram c8Prog)).map
        (fun s => (get_register_value s 3, s.fwdExMem)) =
      some (none, [some { rd := 3, value := none }, none]) := by decide

/-- C8 (amended): the operand read returns a non-integer only when some
matching forwarding record carries value `None`; whenever every record with
destination `n` holds an integer value, the read yields an integer. -/
theorem C8_read_some_of_records_some (fe fm : List (Option FwdRecord))
    (regs : List Int) (n : Nat)
    (h : ∀ r : FwdRecord, some r ∈ fe ++ fm → r.rd = n → r.value.isSome) :
    (grvCore fe fm regs n).isSome := by
  unfold grvCore
  cases hf : (fe ++ fm).find? (fun o =>
      match o with
      | some r => r.rd == n && n != 0
      | none => false) with
  | none => rfl
  | some o =>
      cases o with
      | none => rfl
      | some r =>
          have hmem := List.mem_of_find?_eq_some hf
          have hpred := List.find?_some hf
          simp only [Bool.and_eq_true, beq_iff_eq] at hpred
          simpa using h r hmem hpred.1

/-- A concrete one-record forwarding generation for the C8 witness. -/
def c8Gen : List (Option FwdRecord) := [some { rd := 3, value := some 7 }]

/-- Witness for the amended C8 at concrete forwarding tables. -/
theorem C8_read_some_of_records_some_witness :
    (∀ r : FwdRecord, some r ∈ c8Gen ++ [] → r.rd = 3 → r.value.isSome) ∧
      (grvCore c8Gen [] [0, 1, 2, 5] 3).isSome := by
  refine ⟨?_, C8_read_some_of_records_some c8Gen [] [0, 1, 2, 5] 3 ?_⟩ <;>
    · intro r hr _
      simp only [c8Gen, List.append_nil, List.mem_singleton,
        Option.some.injEq] at hr
      subst hr
      rfl

/-- `ADDI r31,r0,99 ; JAL 4 ; ...` — the ADDI and the JAL retire in the same
write-back, ADDI first.  At Execute time (cycle 3) JAL writes the link
`register[31] = 4`; at their write-back (cycle 5) ADDI writes 99 and the JAL
clause never fires (the memory-stage record has no `jump_address`), so no
re-write of the link happens. -/
def c6Prog : List Nat := [0x201F0063, 0x0C000004, 0x20010001, 0x20020002,
  0x20030003, 0x20040004, 0x20050005, 0x20060006]

/-- C6 counterexample: after the JAL's Execute (cycle 3) `register[31] = 4`,
but after its write-back cycle (cycle 5) `register[31] = 99`: the write-back
performed no JAL write at all, in particular none equal to the Execute-time
value (had the claim held, the JAL write would have restored 4 over the
same-cycle ADDI write of 99). -/
theorem C6_wb_does_not_rewrite_link :
    ((stepN 3 (procWithProgram c6Prog)).map
        (fun s => s.registers.getD 31 0) = some 4) ∧
      ((stepN 5 (procWithProgram c6Prog)).map
        (fun s => s.registers.getD 31 0) = some 99) ∧
      (99 : Int) ≠ 4 :=
  ⟨by decide, by decide, by decide⟩

/-- C6 (amended): a JAL record reaching write-back triggers no register write
at all — the memory-stage record carries no `jump_address` key, so the WB JAL
clause never fires and `register[31]` keeps whatever value it already holds
(the Execute-time link, unless something else overwrote it in between). -/
theorem C6_jal_writeback_is_noop (pc : Int) (regs : List Int) (m : MemResult)
    (h : m.decoded.mnemonic = Mnemonic.JAL) :
    wbSlot pc regs (some m) = regs := by
  simp [wbSlot, h, memRecordJumpAddressGet]

/-- A concrete JAL record as the memory stage would emit it. -/
def c6MemRec : MemResult :=
  { mem_result := none, decoded := decode 0x0C000004, alu_result := none }

/-- Witness for the amended C6 on a concrete JAL memory-stage record. -/
theorem C6_jal_writeback_is_noop_witness :
    c6MemRec.decoded.mnemonic = Mnemonic.JAL ∧
      wbSlot 8 [0, 1] (some c6MemRec) = [0, 1] :=
  ⟨by decide, C6_jal_writeback_is_noop 8 [0, 1] c6MemRec (by decide)⟩

/-- The memory stage as §4.4 of the spec words it, organized by the claim's
cases: an in-bounds LW loads `memory[address]`; an out-of-bounds LW degrades
to the unmodified address value; an in-bounds SW stores `register[rt]`; an
out-of-bounds SW leaves memory unchanged; every other mnemonic passes the ALU
result through unchanged. -/
def memStageSpec (memory regs : List Int) (r : ExecResult) :
    List Int × Option MemResult :=
  if r.decoded.mnemonic = Mnemonic.LW then
    match r.alu_result with
    | some a =>
        if 0 ≤ a ∧ a < (memory.length : Int) then
          (memory, some { mem_result := some (memory.getD a.toNat 0),
                          decoded := r.decoded, alu_result := some a })
        else
          (memory, some { mem_result := some a, decoded := r.decoded,
                          alu_result := some a })
    | none =>
        (memory, some { mem_result := none, decoded := r.decoded,
                        alu_result := none })
  else if r.decoded.mnemonic = Mnemonic.SW then
    match r.alu_result with
    | some a =>
        if 0 ≤ a ∧ a < (memory.length : Int) then
          (memory.set a.toNat (regs.getD r.decoded.rt 0),
           some { mem_result := some a, decoded := r.decoded,
                  alu_result := some a })
        else
          (memory, some { mem_result := some a, decoded := r.decoded,
                          alu_result := some a })
    | none =>
        (memory, some { mem_result := none, decoded := r.decoded,
                        alu_result := none })
  else
    (memory, some { mem_result := r.alu_result, decoded := r.decoded,
                    alu_result := r.alu_result })

/-- C9: the per-slot memory stage implements exactly the spec's LW/SW/other
cases: in-bounds LW loads without touching memory, out-of-bounds LW passes
the address value through without faulting, in-bounds SW writes
`register[rt]` to memory, out-of-bounds SW is a memory no-op, and all other
mnemonics pass the ALU result through with memory unchanged. -/
theorem C9_memory_stage_cases (memory regs : List Int) (r : ExecResult) :
    memSlot regs (memory, []) (some r) =
      ((memStageSpec memory regs r).1, [(memStageSpec memory regs r).2]) := by
  simp only [memSlot, memStageSpec]
  cases halu : r.alu_result with
  | none => split_ifs <;> rfl
  | some a => split_ifs <;> simp_all <;> split <;> rfl

/-- A slot that can neither branch nor jump (and hence cannot touch the
shared `branch_taken` / `jump_address` / `pc` / `registers` state). -/
def notControl : Option Decoded → Bool
  | none => true
  | some d =>
      !(d.itype == InstrType.J) &&
      !(d.mnemonic == Mnemonic.BEQ) && !(d.mnemonic == Mnemonic.BNE) &&
      !(d.mnemonic == Mnemonic.BLTZ) && !(d.mnemonic == Mnemonic.BGEZ)

/-- After a branch is taken, a non-control slot keeps the jump state and the
register file intact (it only re-assigns `pc = jump_address`, a no-op). -/
theorem execSlot_notControl (fe fm : List (Option FwdRecord)) (acc : ExecAcc)
    (o : Option Decoded) (j : Int)
    (ho : notControl o = true) (ht : acc.branch_taken = true)
    (hj : acc.jump_address = some j) (hp : acc.pc = j) :
    (execSlot fe fm acc o).branch_taken = true ∧
      (execSlot fe fm acc o).jump_address = some j ∧
      (execSlot fe fm acc o).pc = j ∧
      (execSlot fe fm acc o).registers = acc.registers := by
  cases o with
  | none => exact ⟨ht, hj, hp, rfl⟩
  | some d =>
      simp only [notControl, Bool.and_eq_true, Bool.not_eq_true',
        beq_eq_false_iff_ne, ne_eq] at ho
      simp only [execSlot]
      cases hty : d.itype <;> simp only [hty]
      · simp [ht, hj]
      · split_ifs with h1 h2
        · simp [ht, hj]
        · exact absurd h2.1 (by tauto)
        · simp [ht, hj]
      · exact absurd hty (by tauto)

theorem exec_foldl_notControl (fe fm : List (Option FwdRecord))
    (rest : List (Option Decoded)) :
    ∀ (acc : ExecAcc) (j : Int), rest.all notControl = true →
      acc.branch_taken = true → acc.jump_address = some j → acc.pc = j →
      ((rest.foldl (execSlot fe fm) acc).branch_taken = true ∧
       (rest.foldl (execSlot fe fm) acc).jump_address = some j ∧
       (rest.foldl (execSlot fe fm) acc).pc = j ∧
       (rest.foldl (execSlot fe fm) acc).registers = acc.registers) := by
  induction rest with
  | nil => intro acc j _ ht hj hp; exact ⟨ht, hj, hp, rfl⟩
  | cons o rs ih =>
      intro acc j hall ht hj hp
      simp only [List.all_cons, Bool.and_eq_true] at hall
      obtain ⟨ho, hrs⟩ := hall
      obtain ⟨h1, h2, h3, h4⟩ := execSlot_notControl fe fm acc o j ho ht hj hp
      simp only [List.foldl_cons]
      obtain ⟨g1, g2, g3, g4⟩ := ih (execSlot fe fm acc o) j hrs h1 h2 h3
      exact ⟨g1, g2, g3, g4.trans h4⟩

/-- A slot-0 BEQ whose two operand reads agree takes the branch to
`pc + immediate`. -/
theorem execSlot_beq_taken (fe fm : List (Option FwdRecord)) (acc : ExecAcc)
    (d : Decoded) (hI : d.itype = InstrType.I) (hM : d.mnemonic = Mnemonic.BEQ)
    (heq : grvCore fe fm acc.registers d.rs = grvCore fe fm acc.registers d.rt) :
    (execSlot fe fm acc (some d)).branch_taken = true ∧
      (execSlot fe fm acc (some d)).jump_address = some (acc.pc + d.immediate) ∧
      (execSlot fe fm acc (some d)).pc = acc.pc + d.immediate ∧
      (execSlot fe fm acc (some d)).registers = acc.registers := by
  simp only [execSlot, hI, hM]
  rw [if_neg (by simp), if_pos (by simp [branchCond, heq])]
  simp

/-- When Execute takes a branch, steps 1-4 of the cycle do not depend on the
Fetch latch: the flush discards it before decode reads it, and no earlier
step reads it. -/
theorem cycleFront_ifLatch_indep (s : PState) (aI : List (Option Nat))
    (aD : List (Option (Int × Nat)))
    (h : (execOf s).branch_taken = true) :
    cycleFront { s with ifInstr := aI, ifDetails := aD } = cycleFront s := by
  have h' : (execOf { s with ifInstr := aI, ifDetails := aD }).branch_taken =
      true := h
  simp only [execOf, execute_stage] at h h'
  simp only [cycleFront, flush_pipeline]
  split
  · rfl
  · rename_i hneg
    exact absurd h hneg

/-- A taken branch makes the whole cycle independent of the Fetch latch. -/
theorem run_ifLatch_indep (s : PState) (aI : List (Option Nat))
    (aD : List (Option (Int × Nat)))
    (h : (execOf s).branch_taken = true) :
    run_pipeline_cycle { s with ifInstr := aI, ifDetails := aD } =
      run_pipeline_cycle s := by
  have hcf := cycleFront_ifLatch_indep s aI aD h
  simp only [run_pipeline_cycle]
  rw [hcf]

/-- C3 (amended): if the group entering Execute has a BEQ in slot 0 whose two
operand reads agree, and every later slot is a non-control instruction, then
(i) Execute resolves the branch: immediately after the Execute stage the
program counter equals the pre-cycle pc plus the sign-extended immediate;
(ii) the whole cycle is independent of whatever occupied the Fetch latch at
resolution time (those instructions are discarded, so they can never reach
write-back); (iii) fetch then runs *from the branch target within the same
cycle*, so the end-of-cycle pc is the target advanced by the words fetched
there (not the bare target, unless the target is past end-of-program).
A same-group companion in the Decode latch still executes and may write
registers — see the counterexample. -/
theorem C3_beq_resolution (s : PState) (d : Decoded)
    (rest : List (Option Decoded))
    (hgrp : s.idDetails = some d :: rest)
    (hI : d.itype = InstrType.I) (hM : d.mnemonic = Mnemonic.BEQ)
    (heq : grvCore s.fwdExMem s.fwdMemWb
        (write_back_stage_func s.pc s.registers s.memDetails) d.rs =
      grvCore s.fwdExMem s.fwdMemWb
        (write_back_stage_func s.pc s.registers s.memDetails) d.rt)
    (hrest : rest.all notControl = true) :
    (execOf s).branch_taken = true ∧
    (execOf s).pc = s.pc + d.immediate ∧
    (∀ (aI : List (Option Nat)) (aD : List (Option (Int × Nat))),
        run_pipeline_cycle { s with ifInstr := aI, ifDetails := aD } =
          run_pipeline_cycle s) ∧
    (run_pipeline_cycle s).map (fun p => p.1.pc) =
      (fetchLoop s.program (s.pc + d.immediate) s.issue_width).map
        (fun q => q.2) := by
  have hout : (execOf s).branch_taken = true ∧
      (execOf s).jump_address = some (s.pc + d.immediate) ∧
      (execOf s).pc = s.pc + d.immediate := by
    unfold execOf execute_stage
    rw [hgrp]
    simp only [List.foldl_cons]
    obtain ⟨b1, b2, b3, b4⟩ := execSlot_beq_taken s.fwdExMem s.fwdMemWb
      { pc := s.pc,
        registers := write_back_stage_func s.pc s.registers s.memDetails,
        branch_taken := false, jump_address := none, results := [] }
      d hI hM heq
    obtain ⟨g1, g2, g3, _⟩ := exec_foldl_notControl s.fwdExMem s.fwdMemWb rest
      _ (s.pc + d.immediate) hrest b1 b2 b3
    exact ⟨g1, g2, g3⟩
  have htaken := hout.1
  have hpc := hout.2.2
  refine ⟨htaken, hpc, fun aI aD => run_ifLatch_indep s aI aD htaken, ?_⟩
  have hgroup : (cycleFront s).2 = List.replicate s.issue_width none :=
    cycleFront_group_of_taken s htaken
  have hdet : detect_data_hazard (cycleFront s).1.exDetails
      (cycleFront s).1.memDetails (cycleFront s).2 = false := by
    rw [hgroup]
    exact detect_replicate_none _ _ _
  simp only [run_pipeline_cycle, hdet, Bool.false_eq_true, if_false]
  rw [cycleFront_program, cycleFront_pc, cycleFront_issue_width, hpc]
  unfold fetch_stage
  cases hfl : fetchLoop s.program (s.pc + d.immediate) s.issue_width with
  | none => rfl
  | some q => rfl

/-- `BEQ r0,r0,+2` followed by seven `ADDI rk,r0,k` fillers: the branch
resolves in cycle 3 with pre-cycle pc 4 and target 6. -/
def c3Prog : List Nat := [0x10000002, 0x20010001, 0x20020002, 0x20030003,
  0x20040004, 0x20050005, 0x20060006, 0x20070007]

/-- C3 counterexample: the claim demands an end-of-cycle pc of `4 + 2 = 6`;
the code ends the resolution cycle at pc 8, because fetch ran from the target
within the same cycle.  Moreover the `ADDI r1,r0,1` companion that occupied
the Decode latch at resolution time *does* write `r1 = 1` (visible after its
write-back in cycle 5), contradicting the claim's second part for the Decode
latch. -/
theorem C3_end_of_cycle_pc_differs :
    ((stepN 2 (procWithProgram c3Prog)).map (fun s => s.pc) = some 4) ∧
      ((stepN 3 (procWithProgram c3Prog)).map (fun s => s.pc) = some 8) ∧
      ((8 : Int) ≠ 4 + 2) ∧
      ((stepN 5 (procWithProgram c3Prog)).map
        (fun s => s.registers.getD 1 0) = some 1) :=
  ⟨by decide, by decide, by decide, by decide⟩

/-- The concrete state entering the branch-resolution cycle of `c3Prog`. -/
def c3S2 : PState :=
  (stepN 2 (procWithProgram c3Prog)).getD (procWithProgram c3Prog)

def c3D : Decoded := decode 0x10000002

def c3Rest : List (Option Decoded) := [some (decode 0x20010001)]

/-- `c3S2` with an arbitrary alternative Fetch latch, for the independence
conjunct. -/
def c3S2alt : PState :=
  { c3S2 with ifInstr := [none, none], ifDetails := [none, none] }

/-- Witness for the amended C3 at the concrete resolution cycle of `c3Prog`. -/
theorem C3_beq_resolution_witness :
    (c3S2.idDetails = some c3D :: c3Rest ∧ c3D.itype = InstrType.I ∧
        c3D.mnemonic = Mnemonic.BEQ ∧ c3Rest.all notControl = true) ∧
      ((execOf c3S2).branch_taken = true ∧
        (execOf c3S2).pc = c3S2.pc + c3D.immediate ∧
        run_pipeline_cycle c3S2alt = run_pipeline_cycle c3S2 ∧
        (run_pipeline_cycle c3S2).map (fun p => p.1.pc) =
          (fetchLoop c3S2.program (c3S2.pc + c3D.immediate)
            c3S2.issue_width).map (fun q => q.2)) := by
  have h := C3_beq_resolution c3S2 c3D c3Rest (by decide) (by decide)
    (by decide) (by decide) (by decide)
  exact ⟨⟨by decide, by decide, by decide, by decide⟩,
    h.1, h.2.1, h.2.2.1 [none, none] [none, none], h.2.2.2⟩

/-- Each loop iteration adds exactly one cycle, so a returning run gains at
most `n` cycles over the seed state. -/
theorem simGo_count_le (n : Nat) :
    ∀ (s : PState) (K : Nat) (out : PState), simGo n s K = some out →
      out.cycle_count ≤ s.cycle_count + n := by
  induction n with
  | zero =>
      intro s K out h
      cases h
      omega
  | succ n ih =>
      intro s K out h
      simp only [simGo] at h
      split at h
      · cases hrc : runCycle s with
        | none => rw [hrc] at h; cases h
        | some s' =>
            rw [hrc] at h
            have hb := ih s' K out h
            have hcc := runCycle_cycle_count hrc
            omega
      · cases h
        omega

/-- If the drain condition holds at every state the run visits, the loop can
only stop at the cycle ceiling: a returning run gains exactly `n` cycles. -/
theorem simGo_exact (K : Nat) :
    ∀ (n : Nat) (s : PState),
      (∀ m, m ≤ n → ((stepN m s).all loopCond) = true) →
      ∀ out, simGo n s K = some out → out.cycle_count = s.cycle_count + n := by
  intro n
  induction n with
  | zero =>
      intro s _ out h
      cases h
      omega
  | succ n ih =>
      intro s hall out h
      have hc : loopCond s = true := by
        have h0 := hall 0 (Nat.zero_le _)
        simpa [stepN, Option.all] using h0
      simp only [simGo, hc, if_true] at h
      cases hrc : runCycle s with
      | none => rw [hrc] at h; cases h
      | some s' =>
          rw [hrc] at h
          have hall' : ∀ m, m ≤ n → ((stepN m s').all loopCond) = true := by
            intro m hm
            have hm1 := hall (m + 1) (by omega)
            simpa [stepN, hrc] using hm1
          have hx := ih s' hall' out h
          have hcc := runCycle_cycle_count hrc
          omega

/-- C10 (amended): *when `simulate` returns* (no cycle raised — see the
counterexample for a program whose branch target makes fetch raise
`IndexError`), it returns with `cycle_count ≤ K`; and for a run whose
pipeline never drains (the `while` condition holds at every state visited up
to the ceiling), it returns with `cycle_count = K` exactly. -/
theorem C10_simulate_cycle_bounds (ms rc w : Nat) (program : List Nat)
    (K : Nat) :
    (∀ out, simulate (initState ms rc w) program K = some out →
        out.cycle_count ≤ K) ∧
      ((∀ m, m ≤ K →
          ((stepN m { initState ms rc w with program := program }).all
            loopCond) = true) →
        ∀ out, simulate (initState ms rc w) program K = some out →
          out.cycle_count = K) := by
  constructor
  · intro out h
    have hb := simGo_count_le K
      { initState ms rc w with program := program } K out h
    simpa [initState] using hb
  · intro hall out h
    have hx := simGo_exact K K
      { initState ms rc w with program := program } hall out h
    simpa [initState] using hx

/-- `BEQ r0,r0,-32768` on a one-word program: taken in cycle 3 with pc 1, it
sets pc to `-32767`; the same cycle's fetch evaluates `program[-32767]`,
below `-len(program)`, which raises `IndexError` in the source —
`simulate` does not return. -/
def c10CrashProg : List Nat := [0x10008000]

/-- C10 counterexample: `simulate` does not return for every program — this
one raises out of the fetch stage in cycle 3 (modelled as `none`). -/
theorem C10_simulate_can_raise :
    simulate (initState 8 32 2) c10CrashProg 100 = none := by decide

/-- `J 0`: an infinite loop that keeps the pipeline busy forever. -/
def c10LoopProg : List Nat := [0x08000000]

def c10S0 : PState := { initState 8 32 2 with program := c10LoopProg }

def c10Out : PState :=
  (simulate (initState 8 32 2) c10LoopProg 4).getD c10S0

/-- Witness for the amended C10 on the `J 0` infinite loop with ceiling 4. -/
theorem C10_simulate_cycle_bounds_witness :
    (∀ m, m ≤ 4 → ((stepN m c10S0).all loopCond) = true) ∧
      simulate (initState 8 32 2) c10LoopProg 4 = some c10Out ∧
      c10Out.cycle_count = 4 := by
  refine ⟨by decide, by decide, ?_⟩
  exact (C10_simulate_cycle_bounds 8 32 2 c10LoopProg 4).2 (by decide) c10Out
    (by decide)
